import Mathlib

set_option maxHeartbeats 1000000

/- Shallow embedding of the ransomware detection and recovery program
   (the file monitor with spike alerts and snapshot restore in
   data_logger_gui_restore_alerts.py, and the decrypt helper in
   crypto_utils.py).  Absolute paths are modelled as a drive tag plus a
   list of components; the filesystem is an association list from paths
   to byte lists where a fresh write shadows the old entry; wall-clock
   instants (time.time values) are integers. -/

structure AbsPath where
  drive : String
  comps : List String
  deriving DecidableEq

abbrev Bytes := List Nat

/- Filesystem store: lookup returns the most recent write. -/

def storeGet {α : Type} [DecidableEq α] : List (α × Bytes) → α → Option Bytes
  | [], _ => none
  | (q, c) :: rest, p => if q = p then some c else storeGet rest p

def storeSet {α : Type} [DecidableEq α] (fs : List (α × Bytes)) (p : α) (c : Bytes) :
    List (α × Bytes) := (p, c) :: fs

abbrev FSA := List (AbsPath × Bytes)

/- os.path helpers on component lists.  basename is the last component;
   underComps decides whether one component list extends another (the
   path lies below the root); relComps is os.path.relpath on component
   lists (common-prefix removal, padding with ".." steps); normComps is
   os.path.normpath (drops "." and empty components, resolves "..");
   relpathOpt fails, as os.path.relpath does, when the drives differ. -/

def basename (p : AbsPath) : String := (p.comps.getLast?).getD ""

def underComps : List String → List String → Bool
  | [], _ => true
  | _ :: _, [] => false
  | r :: rs, q :: qs => (r == q) && underComps rs qs

def is_under (root p : AbsPath) : Bool :=
  (root.drive == p.drive) && underComps root.comps p.comps

def relComps : List String → List String → List String
  | [], p => p
  | _ :: rs, [] => List.replicate (rs.length + 1) ".."
  | r :: rs, q :: qs =>
    if r = q then relComps rs qs
    else List.replicate (rs.length + 1) ".." ++ (q :: qs)

def relpathOpt (p root : AbsPath) : Option (List String) :=
  if p.drive = root.drive then some (relComps root.comps p.comps) else none

def normStep (acc : List String) (c : String) : List String :=
  if c = "" ∨ c = "." then acc
  else if c = ".." then
    match acc with
    | [] => [".."]
    | x :: rest => if x = ".." then ".." :: x :: rest else rest
  else c :: acc

def normComps (l : List String) : List String :=
  let r := (l.foldl normStep []).reverse
  if r = [] then ["."] else r

/- Python str.lower, as a character map. -/

def strLower (s : String) : String := String.mk (s.data.map Char.toLower)

def AbsPath.render (p : AbsPath) : String :=
  p.drive ++ "/" ++ String.intercalate "/" p.comps

def pathStrOpt : Option AbsPath → String
  | none => ""
  | some p => p.render

/- Configuration produced by argument parsing: monitored root, scope
   filter (BASENAMES / RELPATHS both None, or two explicit sets),
   snapshot and duplicates directories, and spike parameters. -/

inductive ScopeFilter where
  | unrestricted : ScopeFilter
  | explicitFilter (basenames : List String) (relpaths : List (List String)) : ScopeFilter
  deriving DecidableEq

structure Config where
  target_directory : AbsPath
  snapshot_dir : AbsPath
  duplicates_dir : AbsPath
  filter : ScopeFilter
  spike_window : ℤ
  spike_threshold : Nat
  alert_cooldown : ℤ
  deriving DecidableEq

/- _is_monitored_path (lines 110-122): unrestricted accepts everything;
   otherwise relativize the path to the monitored root (falling back to
   the bare basename when relativization raises), normalize, and test
   membership in RELPATHS, then the lowercased basename in BASENAMES,
   each check guarded by the set being nonempty (Python truthiness). -/

def is_monitored_path (cfg : Config) (p : AbsPath) : Bool :=
  match cfg.filter with
  | .unrestricted => true
  | .explicitFilter basenames relpaths =>
    let rel : List String :=
      match relpathOpt p cfg.target_directory with
      | some r => r
      | none => [basename p]
    let rel_norm := normComps rel
    if relpaths ≠ [] ∧ rel_norm ∈ relpaths then true
    else if basenames ≠ [] ∧ strLower (basename p) ∈ basenames then true
    else false

/- snapshot_path_for (lines 92-97): relpath against the monitored root,
   returning "" (here: none) when relpath raises, else the snapshot dir
   joined with the relative path. -/

def snapshot_path_for (cfg : Config) (p : AbsPath) : Option AbsPath :=
  match relpathOpt p cfg.target_directory with
  | none => none
  | some rel => some ⟨cfg.snapshot_dir.drive, cfg.snapshot_dir.comps ++ rel⟩

/- The snapshot destination used by the initial sweep (line 84):
   join(SNAPSHOT_DIR, relpath(file, target)). -/

def snapshot_dst (cfg : Config) (p : AbsPath) : AbsPath :=
  ⟨cfg.snapshot_dir.drive, cfg.snapshot_dir.comps ++ relComps cfg.target_directory.comps p.comps⟩

/- update_snapshot_for (lines 99-108): copy the live file over its
   snapshot slot; fails when the snapshot path is empty or the live file
   is unreadable (copy2 raises). -/

def update_snapshot_for (cfg : Config) (fs : FSA) (p : AbsPath) : FSA × Bool :=
  match snapshot_path_for cfg p with
  | none => (fs, false)
  | some sp =>
    match storeGet fs p with
    | some c => (storeSet fs sp c, true)
    | none => (fs, false)

/- The per-file decision of create_initial_snapshot (lines 73-81). -/

def snapshot_take (cfg : Config) (p : AbsPath) : Bool :=
  match cfg.filter with
  | .unrestricted => true
  | .explicitFilter basenames relpaths =>
    let rel := relComps cfg.target_directory.comps p.comps
    let rel_norm := normComps rel
    decide (basenames ≠ [] ∧ strLower (basename p) ∈ basenames)
      || decide (relpaths ≠ [] ∧ rel_norm ∈ relpaths)

/- create_initial_snapshot (lines 65-90): walk the monitored tree and
   copy every file the filter takes into the mirrored snapshot slot; a
   per-file copy failure (source unreadable) is a warning and is
   skipped.  The walk enumerates the files below the monitored root. -/

def walk_files (cfg : Config) (fs : FSA) : List AbsPath :=
  (fs.map Prod.fst).filter (fun q => is_under cfg.target_directory q)

def snap_step (cfg : Config) (acc : FSA) (q : AbsPath) : FSA :=
  if snapshot_take cfg q then
    match storeGet acc q with
    | some c => storeSet acc (snapshot_dst cfg q) c
    | none => acc
  else acc

def create_initial_snapshot (cfg : Config) (fs : FSA) : FSA :=
  (walk_files cfg fs).foldl (snap_step cfg) fs

/- Events.  A raw watchdog event carries a kind, source and destination
   paths (empty modelled as none) and a directory flag; a queue item is
   the normalized event _enqueue builds. -/

inductive EvType where
  | created : EvType
  | deleted : EvType
  | modified : EvType
  | moved : EvType
  deriving DecidableEq

def evTypeStr : EvType → String
  | .created => "created"
  | .deleted => "deleted"
  | .modified => "modified"
  | .moved => "moved"

structure RawEvent where
  rtime : String
  rtype : EvType
  src_path : Option AbsPath
  dest_path : Option AbsPath
  is_directory : Bool
  deriving DecidableEq

structure QItem where
  time : String
  type : EvType
  src_path : Option AbsPath
  dest_path : Option AbsPath
  deriving DecidableEq

def check_path (r : RawEvent) : Option AbsPath := r.src_path <|> r.dest_path

/- GuiEventHandler._enqueue (lines 129-141): the checked path is the
   source path, or the destination when the source is empty; events with
   no path or an out-of-scope path are dropped before the queue. -/

def enqueue (cfg : Config) (tstr : String) (ty : EvType)
    (src dest : Option AbsPath) : Option QItem :=
  match src <|> dest with
  | none => none
  | some check =>
    if is_monitored_path cfg check then some ⟨tstr, ty, src, dest⟩ else none

/- on_created / on_deleted / on_modified / on_moved (lines 142-148):
   only on_moved forwards a destination path, and on_modified drops
   directory events. -/

def handle_raw (cfg : Config) (r : RawEvent) : Option QItem :=
  match r.rtype with
  | .created => enqueue cfg r.rtime .created r.src_path none
  | .deleted => enqueue cfg r.rtime .deleted r.src_path none
  | .modified => if r.is_directory then none else enqueue cfg r.rtime .modified r.src_path none
  | .moved => enqueue cfg r.rtime .moved r.src_path r.dest_path

/- Spike detector state (lines 158-160, 207-228). -/

structure SpikeState where
  mod_deque : List (ℤ × AbsPath)
  last_alert_ts : ℤ
  deriving DecidableEq

def init_spike : SpikeState := ⟨[], 0⟩

def prune (l : List (ℤ × AbsPath)) (cutoff : ℤ) : List (ℤ × AbsPath) :=
  l.dropWhile (fun e => decide (e.1 < cutoff))

def record_mod_event (cfg : Config) (t : ℤ) (p : AbsPath) (s : SpikeState) : SpikeState :=
  ⟨prune (s.mod_deque ++ [(t, p)]) (t - cfg.spike_window), s.last_alert_ts⟩

def count_mods (cfg : Config) (now : ℤ) (s : SpikeState) : Nat :=
  s.mod_deque.countP (fun e => decide (now - cfg.spike_window ≤ e.1))

def collect_recent_paths (cfg : Config) (now : ℤ) (s : SpikeState) : List AbsPath :=
  (s.mod_deque.filter (fun e => decide (now - cfg.spike_window ≤ e.1))).map Prod.snd

/- dict.fromkeys: deduplicate keeping first-seen order (line 227). -/

def dedup_first_seen (l : List AbsPath) : List AbsPath :=
  l.foldl (fun acc x => if x ∈ acc then acc else acc ++ [x]) []

/- _maybe_trigger_spike (lines 222-228): fire one alert payload and
   stamp last_alert_ts when the windowed count reaches the threshold and
   the cooldown has elapsed since the last alert. -/

def maybe_trigger_spike (cfg : Config) (now : ℤ) (s : SpikeState) :
    Option (List AbsPath) × SpikeState :=
  if cfg.spike_threshold ≤ count_mods cfg now s ∧ cfg.alert_cooldown < now - s.last_alert_ts then
    (some (dedup_first_seen (collect_recent_paths cfg now s)), ⟨s.mod_deque, now⟩)
  else (none, s)

def record_all (cfg : Config) (es : List (ℤ × AbsPath)) : SpikeState :=
  es.foldl (fun s e => record_mod_event cfg e.1 e.2 s) init_spike

/- The GUI processing loop state: the event history (newest first) and
   the spike detector state. -/

structure GuiState where
  events : List QItem
  spike : SpikeState
  deriving DecidableEq

/- poll_queue per-item step (lines 343-359): prepend to the history and,
   for modified/created/moved items, record the source path (or the
   destination when the source is empty) into the sliding window. -/

def poll_step (cfg : Config) (t : ℤ) (s : GuiState) (it : QItem) : GuiState :=
  let s1 : GuiState := ⟨it :: s.events, s.spike⟩
  if it.type = .modified ∨ it.type = .created ∨ it.type = .moved then
    match it.src_path <|> it.dest_path with
    | some track => ⟨s1.events, record_mod_event cfg t track s1.spike⟩
    | none => s1
  else s1

/- Ingestion of a stream of raw watcher events, each tagged with the
   wall-clock instant at which the loop dequeues it. -/

def ingest (cfg : Config) (raws : List (ℤ × RawEvent)) (s : GuiState) : GuiState :=
  raws.foldl (fun st tr =>
    match handle_raw cfg tr.2 with
    | some it => poll_step cfg tr.1 st it
    | none => st) s

/- Audit records (csv_log rows, lines 54-62). -/

structure AuditRecord where
  timestamp_iso : String
  event_type : String
  event_path : String
  action_taken : String
  note : String
  deriving DecidableEq

inductive RestoreOutcome where
  | no_source : RestoreOutcome
  | no_snapshot : RestoreOutcome
  | restored : RestoreOutcome
  deriving DecidableEq

structure RestoreResult where
  fs : FSA
  audit : List AuditRecord
  outcome : RestoreOutcome
  deriving DecidableEq

/- The duplicate path of restore_original (lines 451-457):
   join(DUPLICATES_DIR, dirname(rel), basename + "." + ts + ".orig"). -/

def duplicate_path (cfg : Config) (src : AbsPath) (tss : String) : AbsPath :=
  let rel := relComps cfg.target_directory.comps src.comps
  ⟨cfg.duplicates_dir.drive,
   cfg.duplicates_dir.comps ++ rel.dropLast ++ [basename src ++ "." ++ tss ++ ".orig"]⟩

/- restore_original (lines 408-481) for a selected event: no source path
   aborts without a record; an empty or missing snapshot logs
   restore_failed_no_snapshot and mutates nothing; otherwise the
   snapshot content is copied over the live path, then copied again into
   the timestamped duplicate slot, and one restored_and_duplicated
   record is written.  tstr is the ISO timestamp of the csv rows, tss
   the compact UTC stamp used in the duplicate name. -/

def restore_original (cfg : Config) (fs : FSA) (ev : QItem) (tstr tss : String) :
    RestoreResult :=
  match ev.src_path with
  | none => ⟨fs, [], .no_source⟩
  | some src =>
    match snapshot_path_for cfg src with
    | none =>
      ⟨fs, [⟨tstr, evTypeStr ev.type, src.render, "restore_failed_no_snapshot", ""⟩],
       .no_snapshot⟩
    | some sp =>
      match storeGet fs sp with
      | none =>
        ⟨fs, [⟨tstr, evTypeStr ev.type, src.render, "restore_failed_no_snapshot", sp.render⟩],
         .no_snapshot⟩
      | some c =>
        let fs1 := storeSet fs src c
        let dup := duplicate_path cfg src tss
        let fs2 := storeSet fs1 dup c
        ⟨fs2, [⟨tstr, evTypeStr ev.type, src.render, "restored_and_duplicated", dup.render⟩],
         .restored⟩

/- mark_ignore (lines 387-406) for a selected event: always one
   ignored_by_user record; when the source path is nonempty and names an
   existing file, the live content is promoted into the snapshot slot. -/

def mark_ignore (cfg : Config) (fs : FSA) (ev : QItem) (tstr : String) :
    FSA × List AuditRecord :=
  let audit := [⟨tstr, evTypeStr ev.type, pathStrOpt ev.src_path, "ignored_by_user",
                 "user indicated they performed the action"⟩]
  match ev.src_path with
  | none => (fs, audit)
  | some p =>
    match storeGet fs p with
    | none => (fs, audit)
    | some _ => ((update_snapshot_for cfg fs p).1, audit)

/- crypto_utils.py: decrypt_file (lines 39-58).  The Fernet primitives
   (PBKDF2 key derivation and token decryption) are external library
   calls, taken as function parameters; token decryption returns none on
   a wrong password or a tampered token.  The second component of the
   result is the filesystem after the call: every error leaves it
   untouched. -/

def SALT_SIZE : Nat := 16

inductive DecErr where
  | readError : DecErr
  | tooShort : DecErr
  | invalidToken : DecErr
  | outputExists : DecErr
  deriving DecidableEq

def strEndsWith (s suffx : String) : Bool :=
  let n := s.data.length
  let m := suffx.data.length
  decide (m ≤ n) && (s.data.drop (n - m) == suffx.data)

def strDropRight (s : String) (n : Nat) : String :=
  String.mk (s.data.take (s.data.length - n))

def outPathFor (encPath : String) : String :=
  if strEndsWith encPath ".enc" then strDropRight encPath 4 else encPath ++ ".dec"

def decrypt_file (derive : String → Bytes → Bytes)
    (fdec : Bytes → Bytes → Option Bytes)
    (fs : List (String × Bytes)) (encPath password : String) :
    Except DecErr String × List (String × Bytes) :=
  match storeGet fs encPath with
  | none => (.error .readError, fs)
  | some content =>
    if content.length ≤ SALT_SIZE then (.error .tooShort, fs)
    else
      let salt := content.take SALT_SIZE
      let token := content.drop SALT_SIZE
      let key := derive password salt
      match fdec key token with
      | none => (.error .invalidToken, fs)
      | some data =>
        let out := outPathFor encPath
        match storeGet fs out with
        | some _ => (.error .outputExists, fs)
        | none => (.ok out, storeSet fs out data)

/- Concrete inputs used by the witness theorems. -/

def cfg1 : Config := ⟨⟨"", ["mon"]⟩, ⟨"", ["snap"]⟩, ⟨"", ["dupd"]⟩, .unrestricted, 5, 8, 60⟩

def cfgE : Config :=
  ⟨⟨"", ["mon"]⟩, ⟨"", ["snap"]⟩, ⟨"", ["dupd"]⟩,
   .explicitFilter ["a.txt"] [["sub", "b.txt"]], 5, 8, 60⟩

def cfgEmptyF : Config :=
  ⟨⟨"", ["mon"]⟩, ⟨"", ["snap"]⟩, ⟨"", ["dupd"]⟩, .explicitFilter [] [], 5, 8, 60⟩

def pA : AbsPath := ⟨"", ["mon", "a.txt"]⟩
def pB : AbsPath := ⟨"", ["mon", "sub", "b.txt"]⟩
def pD : AbsPath := ⟨"D", ["other", "a.txt"]⟩
def pZ : AbsPath := ⟨"", ["mon", "zz.bin"]⟩
def wp (s : String) : AbsPath := ⟨"", ["mon", s]⟩

def s1 : SpikeState :=
  ⟨[(100, wp "f1"), (100, wp "f2"), (101, wp "f3"), (101, wp "f4"),
    (102, wp "f5"), (102, wp "f6"), (103, wp "f7"), (104, wp "f8")], 0⟩

def es5 : List (ℤ × AbsPath) := [(1, pA), (2, wp "f2"), (3, pA)]

def cfgBig : Config := ⟨⟨"", ["mon"]⟩, ⟨"", ["snap"]⟩, ⟨"", ["dupd"]⟩, .unrestricted, 5, 8, 200⟩

def esBig : List (ℤ × AbsPath) :=
  [(96, wp "f1"), (97, wp "f2"), (97, wp "f3"), (98, wp "f4"),
   (99, wp "f5"), (99, wp "f6"), (100, wp "f7"), (100, wp "f8")]

def evR : QItem := ⟨"T0", .modified, some pA, none⟩
def evDel : QItem := ⟨"T0", .deleted, some pA, none⟩
def fsR : FSA := [(⟨"", ["snap", "a.txt"]⟩, [7, 7, 7])]
def gs0 : GuiState := ⟨[], init_spike⟩
def r6 : RawEvent := ⟨"T0", .modified, some pZ, none, false⟩

def derive0 : String → Bytes → Bytes := fun _ _ => []
def fdec0 : Bytes → Bytes → Option Bytes := fun _ t => if t = [1] then some [9] else none
def fs8 : List (String × Bytes) :=
  [("a.enc", [0]), ("b.enc", List.replicate 16 0 ++ [2]),
   ("c.enc", List.replicate 16 0 ++ [1]), ("c", [0])]

/- Basic store lemma. -/

theorem storeGet_set_eq {α : Type} [DecidableEq α] (fs : List (α × Bytes)) (p q : α)
    (c : Bytes) : storeGet (storeSet fs p c) q = if p = q then some c else storeGet fs q := rfl

/- Spike-detector lemmas. -/

theorem countP_dropWhile_eq (p q : (ℤ × AbsPath) → Bool)
    (h : ∀ x, q x = true → p x = false) :
    ∀ l : List (ℤ × AbsPath), (l.dropWhile q).countP p = l.countP p := by
  intro l
  induction l with
  | nil => rfl
  | cons a t ih =>
    rw [List.dropWhile_cons]
    by_cases hqa : q a = true
    · rw [if_pos hqa, ih, List.countP_cons, h a hqa]
      simp
    · rw [if_neg hqa]

theorem count_record_all (cfg : Config) (es : List (ℤ × AbsPath)) (now : ℤ)
    (hnow : ∀ e ∈ es, e.1 ≤ now) :
    count_mods cfg now (record_all cfg es) =
      es.countP (fun e => decide (now - cfg.spike_window ≤ e.1)) := by
  induction es using List.reverseRecOn with
  | nil => rfl
  | append_singleton es e ih =>
    obtain ⟨te, pe⟩ := e
    have hstep : record_all cfg (es ++ [(te, pe)]) =
        record_mod_event cfg te pe (record_all cfg es) := by
      simp [record_all, List.foldl_append]
    rw [hstep]
    have hte : te ≤ now := by
      have := hnow (te, pe) (by simp)
      simpa using this
    have hdrop : count_mods cfg now (record_mod_event cfg te pe (record_all cfg es)) =
        ((record_all cfg es).mod_deque ++ [(te, pe)]).countP
          (fun e => decide (now - cfg.spike_window ≤ e.1)) := by
      unfold count_mods record_mod_event prune
      exact countP_dropWhile_eq _ _
        (fun x hx => by
          simp only [decide_eq_true_eq] at hx
          simp only [decide_eq_false_iff_not]
          omega) _
    rw [hdrop, List.countP_append, List.countP_append]
    have ihh := ih (fun x hx => hnow x (List.mem_append_left _ hx))
    unfold count_mods at ihh
    rw [ihh]

theorem prune_idem (l : List (ℤ × AbsPath)) (c : ℤ) : prune (prune l c) c = prune l c := by
  induction l with
  | nil => rfl
  | cons a t ih =>
    by_cases h : a.1 < c
    · have hstep : prune (a :: t) c = prune t c := by
        simp [prune, List.dropWhile_cons, h]
      rw [hstep, ih]
    · have hstep : prune (a :: t) c = a :: t := by
        simp [prune, List.dropWhile_cons, h]
      rw [hstep, hstep]

/-- C1: spike alerting discipline.  If at least spike_threshold entries are
counted in the sliding window and more than alert_cooldown seconds have
passed since the last alert timestamp, _maybe_trigger_spike fires exactly
one alert payload (the first-seen-order deduplicated window paths) and sets
last_alert_ts to now; any qualifying burst within the cooldown period fires
no alert, so no payload is produced twice within one cooldown period; and a
qualifying burst after the cooldown elapses fires again. -/
theorem spike_alert_discipline (cfg : Config) (s : SpikeState) (now : ℤ)
    (hcount : cfg.spike_threshold ≤ count_mods cfg now s)
    (hcool : cfg.alert_cooldown < now - s.last_alert_ts) :
    maybe_trigger_spike cfg now s =
      (some (dedup_first_seen (collect_recent_paths cfg now s)), ⟨s.mod_deque, now⟩)
    ∧ (∀ (s2 : SpikeState) (now2 : ℤ), s2.last_alert_ts = now →
        now2 - now ≤ cfg.alert_cooldown → (maybe_trigger_spike cfg now2 s2).1 = none)
    ∧ (∀ (s3 : SpikeState) (now3 : ℤ), s3.last_alert_ts = now →
        cfg.alert_cooldown < now3 - now →
        cfg.spike_threshold ≤ count_mods cfg now3 s3 →
        (maybe_trigger_spike cfg now3 s3).1.isSome = true) := by
  refine ⟨?_, ?_, ?_⟩
  · simp [maybe_trigger_spike, hcount, hcool]
  · intro s2 now2 hlast hle
    have hno : ¬ (cfg.spike_threshold ≤ count_mods cfg now2 s2 ∧
        cfg.alert_cooldown < now2 - s2.last_alert_ts) := by
      rintro ⟨-, h⟩
      rw [hlast] at h
      omega
    simp [maybe_trigger_spike, hno]
  · intro s3 now3 hlast hgt hcnt
    simp [maybe_trigger_spike, hcnt, hlast, hgt]

theorem spike_alert_discipline_witness :
    cfg1.spike_threshold ≤ count_mods cfg1 104 s1
    ∧ cfg1.alert_cooldown < 104 - s1.last_alert_ts
    ∧ maybe_trigger_spike cfg1 104 s1 =
        (some (dedup_first_seen (collect_recent_paths cfg1 104 s1)), ⟨s1.mod_deque, 104⟩) :=
  ⟨by decide, by decide, (spike_alert_discipline cfg1 s1 104 (by decide) (by decide)).1⟩

/-- C5: sliding-window counting.  After recording any sequence of
modification events whose timestamps do not exceed the current instant,
_count_mods equals the number of recorded events with timestamp at least
now minus spike_window; and pruning the window is idempotent, so pruning
twice at the same cutoff retains the same entries and the same count as
pruning once. -/
theorem sliding_window_count (cfg : Config) (es : List (ℤ × AbsPath)) (now : ℤ)
    (hnow : ∀ e ∈ es, e.1 ≤ now) :
    count_mods cfg now (record_all cfg es) =
      es.countP (fun e => decide (now - cfg.spike_window ≤ e.1))
    ∧ ∀ (l : List (ℤ × AbsPath)) (c : ℤ), prune (prune l c) c = prune l c :=
  ⟨count_record_all cfg es now hnow, prune_idem⟩

theorem sliding_window_count_witness :
    (∀ e ∈ es5, e.1 ≤ (6 : ℤ))
    ∧ count_mods cfg1 6 (record_all cfg1 es5) =
        es5.countP (fun e => decide ((6 : ℤ) - cfg1.spike_window ≤ e.1)) :=
  ⟨by decide, (sliding_window_count cfg1 es5 6 (by decide)).1⟩


/- Helper for C6: an out-of-scope checked path makes the handler drop the
   raw event before the queue. -/

theorem handle_raw_out (cfg : Config) (r : RawEvent) (p : AbsPath)
    (hch : check_path r = some p) (hout : is_monitored_path cfg p = false) :
    handle_raw cfg r = none := by
  unfold check_path at hch
  have henq2 : ∀ (tstr : String) (ty : EvType),
      enqueue cfg tstr ty r.src_path r.dest_path = none := by
    intro tstr ty
    unfold enqueue
    rw [hch]
    simp [hout]
  have henq1 : ∀ (tstr : String) (ty : EvType),
      enqueue cfg tstr ty r.src_path none = none := by
    intro tstr ty
    unfold enqueue
    cases hs : r.src_path with
    | none => rfl
    | some v =>
      have hv : v = p := by
        rw [hs, Option.some_orElse] at hch
        exact Option.some_inj.mp hch
      subst hv
      simp [Option.some_orElse, hout]
  cases hty : r.rtype
  case created => simp only [handle_raw, hty]; exact henq1 _ _
  case deleted => simp only [handle_raw, hty]; exact henq1 _ _
  case modified =>
    simp only [handle_raw, hty]
    by_cases hd : r.is_directory = true
    · simp [hd]
    · simp only [if_neg hd]
      exact henq1 _ _
  case moved => simp only [handle_raw, hty]; exact henq2 _ _

/-- C6: out-of-scope events are fully discarded.  A raw watcher event whose
checked path (the source path, or the destination when the source is
empty) fails the scope filter yields no normalized queue item, and
ingesting an event stream containing that event produces exactly the state
produced without it: it never enters the event history or the sliding
window, and no audit record can ever be written for it. -/
theorem out_of_scope_discarded (cfg : Config) (r : RawEvent) (p : AbsPath) (t : ℤ)
    (hch : check_path r = some p)
    (hout : is_monitored_path cfg p = false) :
    handle_raw cfg r = none
    ∧ ∀ (pre post : List (ℤ × RawEvent)) (s : GuiState),
        ingest cfg (pre ++ (t, r) :: post) s = ingest cfg (pre ++ post) s := by
  have hnone := handle_raw_out cfg r p hch hout
  refine ⟨hnone, ?_⟩
  intro pre post s
  simp [ingest, List.foldl_append, hnone]

theorem out_of_scope_discarded_witness :
    handle_raw cfgE r6 = none
    ∧ ingest cfgE [(0, r6)] gs0 = ingest cfgE [] gs0 :=
  have h := out_of_scope_discarded cfgE r6 pZ 0 rfl (by decide)
  ⟨h.1, by
    have h2 := h.2 [] [] gs0
    simpa using h2⟩

/-- C10: sliding-window membership by event kind.  For a dequeued event
carrying a track path (its source path, or its destination path when the
source is empty), the poll step records it into the spike window exactly
when its type is modified, created or moved, and a deleted event leaves
the window untouched; moreover every item the queue can contain carries
such a track path, because _enqueue drops pathless events. -/
theorem window_membership_by_kind (cfg : Config) (t : ℤ) (s : GuiState) (it : QItem)
    (track : AbsPath) (htr : (it.src_path <|> it.dest_path) = some track) :
    ((it.type = .modified ∨ it.type = .created ∨ it.type = .moved) →
        poll_step cfg t s it = ⟨it :: s.events, record_mod_event cfg t track s.spike⟩)
    ∧ (it.type = .deleted → poll_step cfg t s it = ⟨it :: s.events, s.spike⟩)
    ∧ (∀ (tstr : String) (ty : EvType) (src dest : Option AbsPath) (it2 : QItem),
        enqueue cfg tstr ty src dest = some it2 →
        (it2.src_path <|> it2.dest_path).isSome = true) := by
  refine ⟨?_, ?_, ?_⟩
  · intro hk
    unfold poll_step
    rw [if_pos hk, htr]
  · intro hk
    unfold poll_step
    have hno : ¬ (it.type = .modified ∨ it.type = .created ∨ it.type = .moved) := by
      rw [hk]
      rintro (h | h | h) <;> exact EvType.noConfusion h
    rw [if_neg hno]
  · intro tstr ty src dest it2 he
    unfold enqueue at he
    split at he
    · exact Option.noConfusion he
    · rename_i check heq
      split at he
      · have hit : it2 = ⟨tstr, ty, src, dest⟩ := (Option.some_inj.mp he).symm
        subst hit
        show (src <|> dest).isSome = true
        rw [heq]
        rfl
      · exact Option.noConfusion he

theorem window_membership_by_kind_witness :
    poll_step cfg1 0 gs0 evR = ⟨evR :: gs0.events, record_mod_event cfg1 0 pA gs0.spike⟩
    ∧ poll_step cfg1 0 gs0 evDel = ⟨evDel :: gs0.events, gs0.spike⟩ :=
  ⟨(window_membership_by_kind cfg1 0 gs0 evR pA rfl).1 (Or.inl rfl),
   (window_membership_by_kind cfg1 0 gs0 evDel pA rfl).2.1 rfl⟩

/-- C7: path filter semantics.  An unrestricted filter matches every path;
an explicit filter matches exactly when the lowercased basename is in the
basenames set or the normalized path relative to the monitored root is in
the relative-paths set; when relativization fails (path on another drive)
matching falls back to comparing only the basename against both sets; and
an explicitly constructed filter with both sets empty matches nothing. -/
theorem path_filter_semantics (cfg : Config) (p : AbsPath) :
    (cfg.filter = .unrestricted → is_monitored_path cfg p = true)
    ∧ (∀ (bs : List String) (rps : List (List String)) (rel : List String),
        cfg.filter = .explicitFilter bs rps →
        relpathOpt p cfg.target_directory = some rel →
        (is_monitored_path cfg p = true ↔
          (strLower (basename p) ∈ bs ∨ normComps rel ∈ rps)))
    ∧ (∀ (bs : List String) (rps : List (List String)),
        cfg.filter = .explicitFilter bs rps →
        relpathOpt p cfg.target_directory = none →
        (is_monitored_path cfg p = true ↔
          (strLower (basename p) ∈ bs ∨ normComps [basename p] ∈ rps)))
    ∧ (cfg.filter = .explicitFilter [] [] → is_monitored_path cfg p = false) := by
  refine ⟨?_, ?_, ?_, ?_⟩
  · intro h
    simp [is_monitored_path, h]
  · intro bs rps rel hf hrel
    simp only [is_monitored_path, hf, hrel]
    split_ifs with h1 h2
    · simp [h1.2]
    · simp [h2.2]
    · simp only [Bool.false_eq_true, false_iff]
      rintro (hb | hr)
      · exact h2 ⟨List.ne_nil_of_mem hb, hb⟩
      · exact h1 ⟨List.ne_nil_of_mem hr, hr⟩
  · intro bs rps hf hrel
    simp only [is_monitored_path, hf, hrel]
    split_ifs with h1 h2
    · simp [h1.2]
    · simp [h2.2]
    · simp only [Bool.false_eq_true, false_iff]
      rintro (hb | hr)
      · exact h2 ⟨List.ne_nil_of_mem hb, hb⟩
      · exact h1 ⟨List.ne_nil_of_mem hr, hr⟩
  · intro h
    simp [is_monitored_path, h]

theorem path_filter_semantics_witness :
    is_monitored_path cfg1 pA = true
    ∧ (is_monitored_path cfgE pB = true ↔
        (strLower (basename pB) ∈ ["a.txt"] ∨ normComps ["sub", "b.txt"] ∈ [["sub", "b.txt"]]))
    ∧ (is_monitored_path cfgE pD = true ↔
        (strLower (basename pD) ∈ ["a.txt"] ∨ normComps [basename pD] ∈ [["sub", "b.txt"]]))
    ∧ is_monitored_path cfgEmptyF pA = false :=
  ⟨(path_filter_semantics cfg1 pA).1 rfl,
   (path_filter_semantics cfgE pB).2.1 ["a.txt"] [["sub", "b.txt"]] ["sub", "b.txt"] rfl
     (by decide),
   (path_filter_semantics cfgE pD).2.2.1 ["a.txt"] [["sub", "b.txt"]] rfl (by decide),
   (path_filter_semantics cfgEmptyF pA).2.2.2 rfl⟩

/-- C2: successful restore.  For an event whose source path has an
existing snapshot file, restore_original overwrites the live path with the
snapshot content byte-for-byte, creates exactly one duplicate holding the
snapshot content at the path built from the duplicates root, the mirrored
relative directory of the source, and the name basename.timestamp.orig,
leaves every other path untouched, and writes exactly one audit record
with action_taken restored_and_duplicated. -/
theorem restore_success (cfg : Config) (fs : FSA) (ev : QItem) (src sp : AbsPath)
    (c : Bytes) (tstr tss : String)
    (hsrc : ev.src_path = some src)
    (hsp : snapshot_path_for cfg src = some sp)
    (hc : storeGet fs sp = some c) :
    (restore_original cfg fs ev tstr tss).outcome = .restored
    ∧ storeGet (restore_original cfg fs ev tstr tss).fs src = some c
    ∧ storeGet (restore_original cfg fs ev tstr tss).fs (duplicate_path cfg src tss) = some c
    ∧ (∀ q : AbsPath, q ≠ src → q ≠ duplicate_path cfg src tss →
        storeGet (restore_original cfg fs ev tstr tss).fs q = storeGet fs q)
    ∧ (restore_original cfg fs ev tstr tss).audit =
        [⟨tstr, evTypeStr ev.type, src.render, "restored_and_duplicated",
          (duplicate_path cfg src tss).render⟩]
    ∧ duplicate_path cfg src tss =
        ⟨cfg.duplicates_dir.drive,
         cfg.duplicates_dir.comps
           ++ (relComps cfg.target_directory.comps src.comps).dropLast
           ++ [basename src ++ "." ++ tss ++ ".orig"]⟩ := by
  have hre : restore_original cfg fs ev tstr tss =
      ⟨storeSet (storeSet fs src c) (duplicate_path cfg src tss) c,
       [⟨tstr, evTypeStr ev.type, src.render, "restored_and_duplicated",
         (duplicate_path cfg src tss).render⟩], .restored⟩ := by
    simp only [restore_original, hsrc, hsp, hc]
  refine ⟨by rw [hre], ?_, ?_, ?_, by rw [hre], rfl⟩
  · rw [hre]
    by_cases h : duplicate_path cfg src tss = src <;>
      simp [storeGet_set_eq, h]
  · rw [hre]
    simp [storeGet_set_eq]
  · intro q h1 h2
    rw [hre]
    simp [storeGet_set_eq, Ne.symm h1, Ne.symm h2]

theorem restore_success_witness :
    (restore_original cfg1 fsR evR "T1" "TS").outcome = .restored
    ∧ storeGet (restore_original cfg1 fsR evR "T1" "TS").fs pA = some [7, 7, 7]
    ∧ storeGet (restore_original cfg1 fsR evR "T1" "TS").fs (duplicate_path cfg1 pA "TS") =
        some [7, 7, 7]
    ∧ (restore_original cfg1 fsR evR "T1" "TS").audit =
        [⟨"T1", evTypeStr evR.type, pA.render, "restored_and_duplicated",
          (duplicate_path cfg1 pA "TS").render⟩] :=
  have h := restore_success cfg1 fsR evR pA ⟨"", ["snap", "a.txt"]⟩ [7, 7, 7] "T1" "TS"
    rfl (by decide) rfl
  ⟨h.1, h.2.1, h.2.2.1, h.2.2.2.2.1⟩

/-- C3: restore with a missing snapshot is a no-op on the filesystem.  For
an event whose source path has an empty computed snapshot path or whose
snapshot file does not exist, restore_original returns the no-snapshot
outcome, leaves the filesystem exactly as it was, and writes exactly one
audit record with action_taken restore_failed_no_snapshot; the failure is
returned as a value, so the system keeps running. -/
theorem restore_no_snapshot (cfg : Config) (fs : FSA) (ev : QItem) (src : AbsPath)
    (tstr tss : String)
    (hsrc : ev.src_path = some src)
    (hns : snapshot_path_for cfg src = none ∨
        ∃ sp, snapshot_path_for cfg src = some sp ∧ storeGet fs sp = none) :
    (restore_original cfg fs ev tstr tss).fs = fs
    ∧ (restore_original cfg fs ev tstr tss).outcome = .no_snapshot
    ∧ (restore_original cfg fs ev tstr tss).audit.map (fun a => a.action_taken) =
        ["restore_failed_no_snapshot"] := by
  rcases hns with h | ⟨sp, h1, h2⟩
  · refine ⟨?_, ?_, ?_⟩ <;> simp [restore_original, hsrc, h]
  · refine ⟨?_, ?_, ?_⟩ <;> simp [restore_original, hsrc, h1, h2]

theorem restore_no_snapshot_witness :
    (restore_original cfg1 ([] : FSA) evR "T1" "TS").fs = []
    ∧ (restore_original cfg1 ([] : FSA) evR "T1" "TS").outcome = .no_snapshot
    ∧ (restore_original cfg1 ([] : FSA) evR "T1" "TS").audit.map (fun a => a.action_taken) =
        ["restore_failed_no_snapshot"] :=
  restore_no_snapshot cfg1 [] evR pA "T1" "TS" rfl
    (Or.inr ⟨⟨"", ["snap", "a.txt"]⟩, by decide, rfl⟩)

/-- C9: ignoring an event promotes the live content to the snapshot.  An
Ignore action on a selected event always writes exactly one audit record
with action_taken ignored_by_user; when the event's source path is
nonempty, names an existing file, and has a snapshot slot, the live
content is copied over that slot; when the file no longer exists, the
filesystem (hence the snapshot) is left unchanged. -/
theorem ignore_promotes_snapshot (cfg : Config) (fs : FSA) (ev : QItem) (tstr : String)
    (src sp : AbsPath) (c : Bytes)
    (hsrc : ev.src_path = some src)
    (hex : storeGet fs src = some c)
    (hsp : snapshot_path_for cfg src = some sp) :
    (∀ (fs2 : FSA) (ev2 : QItem),
        (mark_ignore cfg fs2 ev2 tstr).2 =
          [⟨tstr, evTypeStr ev2.type, pathStrOpt ev2.src_path, "ignored_by_user",
            "user indicated they performed the action"⟩])
    ∧ (mark_ignore cfg fs ev tstr).1 = storeSet fs sp c
    ∧ (∀ fs2 : FSA, storeGet fs2 src = none → (mark_ignore cfg fs2 ev tstr).1 = fs2) := by
  refine ⟨?_, ?_, ?_⟩
  · intro fs2 ev2
    cases h : ev2.src_path with
    | none => simp [mark_ignore, h]
    | some q => cases h2 : storeGet fs2 q <;> simp [mark_ignore, h, h2]
  · simp [mark_ignore, update_snapshot_for, hsrc, hex, hsp]
  · intro fs2 h0
    simp [mark_ignore, hsrc, h0]

theorem ignore_promotes_snapshot_witness :
    (mark_ignore cfg1 [(pA, [1, 2])] evR "T1").2 =
      [⟨"T1", evTypeStr evR.type, pathStrOpt evR.src_path, "ignored_by_user",
        "user indicated they performed the action"⟩]
    ∧ (mark_ignore cfg1 [(pA, [1, 2])] evR "T1").1 =
        storeSet [(pA, [1, 2])] ⟨"", ["snap", "a.txt"]⟩ [1, 2]
    ∧ (mark_ignore cfg1 ([] : FSA) evR "T1").1 = [] :=
  have h := ignore_promotes_snapshot cfg1 [(pA, [1, 2])] evR "T1" pA
    ⟨"", ["snap", "a.txt"]⟩ [1, 2] rfl rfl (by decide)
  ⟨h.1 [(pA, [1, 2])] evR, h.2.1, h.2.2 [] rfl⟩

/-- C8: decrypt failure atomicity.  For any artifact and password,
decrypt_file returns a distinct error when the artifact length is at most
the salt size, when token decryption fails (wrong password or tampering),
and when the computed output path already exists after a successful
decryption; in every one of these failure cases the returned filesystem is
exactly the input filesystem, so no output file is written. -/
theorem decrypt_failure_atomicity (derive : String → Bytes → Bytes)
    (fdec : Bytes → Bytes → Option Bytes) (fs : List (String × Bytes))
    (encPath password : String) (content : Bytes)
    (hread : storeGet fs encPath = some content) :
    (content.length ≤ SALT_SIZE →
        decrypt_file derive fdec fs encPath password = (.error .tooShort, fs))
    ∧ (SALT_SIZE < content.length →
        fdec (derive password (content.take SALT_SIZE)) (content.drop SALT_SIZE) = none →
        decrypt_file derive fdec fs encPath password = (.error .invalidToken, fs))
    ∧ (∀ data : Bytes, SALT_SIZE < content.length →
        fdec (derive password (content.take SALT_SIZE)) (content.drop SALT_SIZE) = some data →
        (storeGet fs (outPathFor encPath)).isSome = true →
        decrypt_file derive fdec fs encPath password = (.error .outputExists, fs)) := by
  refine ⟨?_, ?_, ?_⟩
  · intro hlen
    simp [decrypt_file, hread, hlen]
  · intro hlen hf
    simp [decrypt_file, hread, Nat.not_le.mpr hlen, hf]
  · intro data hlen hf hout
    rcases Option.isSome_iff_exists.mp hout with ⟨d2, hd2⟩
    simp [decrypt_file, hread, Nat.not_le.mpr hlen, hf, hd2]

theorem decrypt_failure_atomicity_witness :
    decrypt_file derive0 fdec0 fs8 "a.enc" "pw" = (.error .tooShort, fs8)
    ∧ decrypt_file derive0 fdec0 fs8 "b.enc" "pw" = (.error .invalidToken, fs8)
    ∧ decrypt_file derive0 fdec0 fs8 "c.enc" "pw" = (.error .outputExists, fs8) :=
  ⟨(decrypt_failure_atomicity derive0 fdec0 fs8 "a.enc" "pw" [0] (by decide)).1 (by decide),
   (decrypt_failure_atomicity derive0 fdec0 fs8 "b.enc" "pw"
       (List.replicate 16 0 ++ [2]) (by decide)).2.1 (by decide) (by decide),
   (decrypt_failure_atomicity derive0 fdec0 fs8 "c.enc" "pw"
       (List.replicate 16 0 ++ [1]) (by decide)).2.2 [9] (by decide) (by decide) (by decide)⟩

/- Path lemmas for C4: a path below the root is the root plus its
   relative part, and snapshot destinations are injective on such
   paths. -/

theorem underComps_append :
    ∀ (r q : List String), underComps r q = true → q = r ++ relComps r q := by
  intro r
  induction r with
  | nil => intro q _; simp [relComps]
  | cons a rs ih =>
    intro q hq
    cases q with
    | nil => simp [underComps] at hq
    | cons b qs =>
      simp only [underComps, Bool.and_eq_true, beq_iff_eq] at hq
      obtain ⟨hab, hrec⟩ := hq
      subst hab
      have hred : relComps (a :: rs) (a :: qs) = relComps rs qs := by
        simp [relComps]
      rw [hred, List.cons_append]
      exact congrArg (List.cons a) (ih qs hrec)

theorem snapshot_dst_inj (cfg : Config) (p1 p2 : AbsPath)
    (h1 : is_under cfg.target_directory p1 = true)
    (h2 : is_under cfg.target_directory p2 = true)
    (heq : snapshot_dst cfg p1 = snapshot_dst cfg p2) : p1 = p2 := by
  unfold is_under at h1 h2
  simp only [Bool.and_eq_true, beq_iff_eq] at h1 h2
  obtain ⟨hd1, hu1⟩ := h1
  obtain ⟨hd2, hu2⟩ := h2
  have hcomps : cfg.snapshot_dir.comps ++ relComps cfg.target_directory.comps p1.comps =
      cfg.snapshot_dir.comps ++ relComps cfg.target_directory.comps p2.comps :=
    congrArg AbsPath.comps heq
  have hrel := List.append_cancel_left hcomps
  have e1 := underComps_append _ _ hu1
  have e2 := underComps_append _ _ hu2
  have hc : p1.comps = p2.comps := by rw [e1, e2, hrel]
  cases p1 with
  | mk d1 c1 =>
    cases p2 with
    | mk d2 c2 =>
      simp only at hc hd1 hd2
      subst hc
      have hd : d1 = d2 := by rw [← hd1, ← hd2]
      rw [hd]

theorem storeGet_some_mem {α : Type} [DecidableEq α] (fs : List (α × Bytes)) (p : α)
    (c : Bytes) (h : storeGet fs p = some c) : p ∈ fs.map Prod.fst := by
  induction fs with
  | nil => exact Option.noConfusion h
  | cons e rest ih =>
    obtain ⟨q, cq⟩ := e
    simp only [storeGet] at h
    by_cases hq : q = p
    · subst hq; simp
    · rw [if_neg hq] at h
      simp only [List.map_cons, List.mem_cons]
      exact Or.inr (ih h)

/- Fold lemmas for C4: the initial sweep never changes files below the
   monitored root, and once a snapshot slot holds the right content no
   later step of the sweep can change it. -/

theorem snap_step_agree (cfg : Config) (acc : FSA) (a q : AbsPath)
    (hdisj : ∀ x, is_under cfg.target_directory x = true →
        is_under cfg.target_directory (snapshot_dst cfg x) = false)
    (ha : is_under cfg.target_directory a = true)
    (hq : is_under cfg.target_directory q = true) :
    storeGet (snap_step cfg acc a) q = storeGet acc q := by
  unfold snap_step
  by_cases ht : snapshot_take cfg a = true
  · rw [if_pos ht]
    cases hg : storeGet acc a with
    | none => rfl
    | some ca =>
      rw [storeGet_set_eq, if_neg]
      intro hEq
      have hfalse := hdisj a ha
      rw [hEq] at hfalse
      rw [hfalse] at hq
      exact Bool.noConfusion hq
  · rw [if_neg ht]

theorem fold_agree (cfg : Config) (fs : FSA)
    (hdisj : ∀ x, is_under cfg.target_directory x = true →
        is_under cfg.target_directory (snapshot_dst cfg x) = false) :
    ∀ (l : List AbsPath) (acc : FSA),
      (∀ a ∈ l, is_under cfg.target_directory a = true) →
      (∀ q, is_under cfg.target_directory q = true → storeGet acc q = storeGet fs q) →
      ∀ q, is_under cfg.target_directory q = true →
        storeGet (l.foldl (snap_step cfg) acc) q = storeGet fs q := by
  intro l
  induction l with
  | nil => intro acc _ hagree q hq; exact hagree q hq
  | cons a t ih =>
    intro acc hall hagree q hq
    rw [List.foldl_cons]
    refine ih (snap_step cfg acc a) (fun x hx => hall x (List.mem_cons_of_mem _ hx)) ?_ q hq
    intro r hr
    rw [snap_step_agree cfg acc a r hdisj (hall a (List.mem_cons_self a t)) hr]
    exact hagree r hr

theorem fold_keep (cfg : Config) (fs : FSA) (p : AbsPath) (c : Bytes)
    (hdisj : ∀ x, is_under cfg.target_directory x = true →
        is_under cfg.target_directory (snapshot_dst cfg x) = false)
    (hp : is_under cfg.target_directory p = true)
    (hcfs : storeGet fs p = some c) :
    ∀ (l : List AbsPath) (acc : FSA),
      (∀ a ∈ l, is_under cfg.target_directory a = true) →
      (∀ q, is_under cfg.target_directory q = true → storeGet acc q = storeGet fs q) →
      storeGet acc (snapshot_dst cfg p) = some c →
      storeGet (l.foldl (snap_step cfg) acc) (snapshot_dst cfg p) = some c := by
  intro l
  induction l with
  | nil => intro acc _ _ hkeep; exact hkeep
  | cons a t ih =>
    intro acc hall hagree hkeep
    rw [List.foldl_cons]
    have ha := hall a (List.mem_cons_self a t)
    refine ih (snap_step cfg acc a)
      (fun x hx => hall x (List.mem_cons_of_mem _ hx)) ?_ ?_
    · intro r hr
      rw [snap_step_agree cfg acc a r hdisj ha hr]
      exact hagree r hr
    · unfold snap_step
      by_cases ht : snapshot_take cfg a = true
      · rw [if_pos ht]
        cases hg : storeGet acc a with
        | none => exact hkeep
        | some ca =>
          rw [storeGet_set_eq]
          by_cases hEq : snapshot_dst cfg a = snapshot_dst cfg p
          · rw [if_pos hEq]
            have hap : a = p := snapshot_dst_inj cfg a p ha hp hEq
            subst hap
            have hca : storeGet acc a = some c := by
              rw [hagree a ha]
              exact hcfs
            rw [hg] at hca
            exact hca
          · rw [if_neg hEq]
            exact hkeep
      · rw [if_neg ht]
        exact hkeep

/-- C4: snapshot round-trip.  After the initial snapshot sweep over a
filesystem whose snapshot destinations lie outside the monitored root,
every in-scope file below the monitored root that exists at sweep time has
its content copied to its snapshot slot, and snapshot_path_for returns
exactly that slot (the snapshot root joined with the path relative to the
monitored root), so looking the file up yields a snapshot whose content
equals the live content at initialization time. -/
theorem snapshot_round_trip (cfg : Config) (fs : FSA) (p : AbsPath) (c : Bytes)
    (hdisj : ∀ x, is_under cfg.target_directory x = true →
        is_under cfg.target_directory (snapshot_dst cfg x) = false)
    (hp : is_under cfg.target_directory p = true)
    (htake : snapshot_take cfg p = true)
    (hc : storeGet fs p = some c) :
    snapshot_path_for cfg p = some (snapshot_dst cfg p)
    ∧ storeGet (create_initial_snapshot cfg fs) (snapshot_dst cfg p) = some c := by
  have hdrive : cfg.target_directory.drive = p.drive := by
    unfold is_under at hp
    simp only [Bool.and_eq_true, beq_iff_eq] at hp
    exact hp.1
  have hpu : is_under cfg.target_directory p = true := hp
  constructor
  · unfold snapshot_path_for relpathOpt
    rw [if_pos hdrive.symm]
    rfl
  · have hmem : p ∈ walk_files cfg fs := by
      unfold walk_files
      exact List.mem_filter.mpr ⟨storeGet_some_mem fs p c hc, hpu⟩
    obtain ⟨l1, l2, hsplit⟩ := List.append_of_mem hmem
    have hall : ∀ a ∈ walk_files cfg fs, is_under cfg.target_directory a = true := by
      intro a haw
      unfold walk_files at haw
      exact (List.mem_filter.mp haw).2
    unfold create_initial_snapshot
    rw [hsplit, List.foldl_append, List.foldl_cons]
    have hall1 : ∀ a ∈ l1, is_under cfg.target_directory a = true := by
      intro a hx
      exact hall a (by rw [hsplit]; exact List.mem_append_left _ hx)
    have hall2 : ∀ a ∈ l2, is_under cfg.target_directory a = true := by
      intro a hx
      refine hall a ?_
      rw [hsplit]
      exact List.mem_append_right _ (List.mem_cons_of_mem _ hx)
    have hagree1 : ∀ q, is_under cfg.target_directory q = true →
        storeGet (l1.foldl (snap_step cfg) fs) q = storeGet fs q :=
      fold_agree cfg fs hdisj l1 fs hall1 (fun _ _ => rfl)
    have hstep : ∀ acc : FSA, storeGet acc p = some c →
        snap_step cfg acc p = storeSet acc (snapshot_dst cfg p) c := by
      intro acc hacc
      unfold snap_step
      rw [if_pos htake, hacc]
    rw [hstep (l1.foldl (snap_step cfg) fs) (by rw [hagree1 p hpu]; exact hc)]
    refine fold_keep cfg fs p c hdisj hpu hc l2 _ hall2 ?_ ?_
    · intro q hq
      rw [storeGet_set_eq, if_neg, hagree1 q hq]
      intro hEq
      have hfalse := hdisj p hpu
      rw [hEq] at hfalse
      rw [hfalse] at hq
      exact Bool.noConfusion hq
    · rw [storeGet_set_eq, if_pos rfl]

theorem snapshot_round_trip_witness :
    snapshot_path_for cfg1 pA = some (snapshot_dst cfg1 pA)
    ∧ storeGet (create_initial_snapshot cfg1 [(pA, [3, 4])]) (snapshot_dst cfg1 pA) =
        some [3, 4] :=
  snapshot_round_trip cfg1 [(pA, [3, 4])] pA [3, 4] (fun _ _ => rfl) (by decide) (by decide) rfl

/-- C1 counterexample: the code initializes last_alert_ts to the sentinel 0
rather than to an optional no-alert marker, so with alert_cooldown = 200
and a clock reading of 100, a first qualifying burst of 8 recorded
modifications (no alert has fired yet, the window count meets the
threshold 8) fires no alert, contradicting the claim that a qualifying
burst fires whenever no alert has fired yet. -/
theorem spike_alert_discipline_counterexample :
    (record_all cfgBig esBig).last_alert_ts = 0
    ∧ cfgBig.spike_threshold ≤ count_mods cfgBig 100 (record_all cfgBig esBig)
    ∧ (maybe_trigger_spike cfgBig 100 (record_all cfgBig esBig)).1 = none := by
  decide
